import Mathlib

/-!
Shallow embedding of the xi scripting-language core (lexing and parsing are
out of scope; the embedding starts from the AST of `src/expr.rs`).

Conventions of the embedding:
* `rug::Integer` (arbitrary precision) is `Int`.
* `rug::Float` is modelled exactly as a rational number together with a NaN
  flag (`FloatV`); MPFR rounding, infinities and the precision tag are not
  modelled — no verified claim depends on them.
* `usize` values are `Nat`; the platform is taken to be 64-bit, so a
  `try_into::<usize>()` of an integer succeeds iff `0 ≤ i < 2^64`, and the
  `usize` subtraction `distance - 1` of `env.rs` wraps around at `0`
  (two's-complement wraparound, the release-build behavior of Rust;
  a debug build would abort instead).
* Shared mutable state (`Rc<RefCell<...>>`) is modelled by a `Store` of
  environment frames / list payloads / dict payloads addressed by index,
  threaded through evaluation explicitly.
* Rust panics (out-of-bounds indexing, `unwrap()` of `None`) are the
  distinguished outcome `.panic`.
* Every recursive pass takes explicit fuel; `.nofuel` is the out-of-fuel
  artifact of the model (the Rust code just recurses).
* Source spans are not modelled: diagnostics are identified by their error
  kind only (`report.rs` struct names).
-/

namespace Xi

/-- Diagnosable error kinds, one per `report.rs` diagnostic struct that the
resolver/evaluator core can carry (`DictKeyError` is declared in `report.rs`
but never constructed by the interpreter). -/
inductive ErrKind where
  | unsupportedOperation
  | undefinedValue
  | calleeTypeError
  | instanceTypeError
  | indexTypeError
  | listIndexInvalidError
  | listIndexOutOfBoundsError
  | dictKeyError
  | readLocalVariableInOwnInitializer
  deriving DecidableEq, Repr

/-- The two variants of `ValueError` in `value.rs`. -/
inductive ValueError where
  | unsupportedOperation
  | integerConversionError
  deriving DecidableEq, Repr

/-- Result of a `value.rs` operator: `Result<T, ValueError>` plus the
possibility of a Rust panic (integer division by zero panics in rug). -/
inductive OpRes (α : Type) where
  | ok (a : α)
  | err (e : ValueError)
  | panic
  deriving DecidableEq, Repr

/-- Model of a `rug::Float` value: a NaN flag and an exact rational payload.
Rounding and infinities are not modelled (see the file header). -/
structure FloatV where
  nan : Bool
  val : Rat
  deriving DecidableEq, Repr

/-- The literal payload of a token (`Literal` in `token.rs`). -/
inductive Lit where
  | identifier (s : String)
  | str (s : String)
  | int (i : Int)
  | float (f : FloatV)
  deriving DecidableEq, Repr

/-- Token kinds (`TokenKind` in `token.rs`); keyword variants carry a `kw`
name to avoid clashing with Lean keywords. -/
inductive TokKind where
  | leftParen | rightParen | leftBrace | rightBrace
  | comma | dot | minus | plus | semicolon | slash | star | pipe
  | bang | bangEqual | equal | equalEqual
  | greater | greaterEqual | less | lessEqual
  | identifier | string | integer | float
  | kwAnd | kwClass | kwElse | kwFalse | kwFn | kwFor | kwIf | kwNil
  | kwOr | kwPrint | kwReturn | kwSuper | kwThis | kwTrue | kwVar | kwWhile
  deriving DecidableEq, Repr

/-- The four builtins installed by `Env::global()` in `env.rs`. -/
inductive BuiltinKind where
  | time | print | println | len
  deriving DecidableEq, Repr

/-- Evaluation context (`Ctx` in `context.rs`): an environment reference into
the store and the nesting `size` counter. The shared resolver result is
passed separately to the evaluator. -/
structure Ctx where
  env : Nat
  size : Nat
  deriving DecidableEq, Repr

mutual

/-- Runtime values (`Value` in `value.rs`). The file in `src/` shows the
variants `True`, `False`, `Nil`, `Literal`; the `Function`, `List` and `Dict`
variants are constructed by `env.rs`/`interpreter.rs` (their payloads are
`Rc<RefCell<...>>` handles, modelled as store indices). -/
inductive Value where
  | vtrue
  | vfalse
  | nil
  | lit (l : Lit)
  | func (f : Func)
  | list (r : Nat)
  | dict (r : Nat)

/-- Callables (`function.rs`): builtins, and `SimpleFunction` closures
capturing name, parameters, body and the defining context by reference. -/
inductive Func where
  | builtin (b : BuiltinKind)
  | simple (name : String) (params : List String) (body : List Stmt)
      (closure : Ctx)

/-- An expression node (`Expr` in `expr.rs`): kind plus the unique node id
(the source's span is not modelled). -/
inductive Expr where
  | mk (kind : ExprKind) (id : Nat)

/-- Expression kinds (`ExprKind` in `expr.rs`). -/
inductive ExprKind where
  | assign (name : String) (value : Expr)
  | binary (left : Expr) (op : TokKind) (right : Expr)
  | call (callee : Expr) (args : List Expr)
  | getIndex (obj : Expr) (index : Expr)
  | setIndex (obj : Expr) (index : Expr) (value : Expr)
  | listE (items : List Expr)
  | dictE (items : List (Expr × Expr))
  | get (obj : Expr) (name : String)
  | grouping (value : Expr)
  | literal (value : Value)
  | logical (left : Expr) (op : TokKind) (right : Expr)
  | set (obj : Expr) (name : String) (value : Expr)
  | unary (op : TokKind) (right : Expr)
  | var (name : String)

/-- A statement node (`Stmt` in `expr.rs`): kind plus unique node id. -/
inductive Stmt where
  | mk (kind : StmtKind) (id : Nat)

/-- Statement kinds (`StmtKind` in `expr.rs`). -/
inductive StmtKind where
  | block (statements : List Stmt)
  | expression (e : Expr)
  | function (name : String) (params : List String) (body : List Stmt)
  | ifS (cond : Expr) (thenBranch : Stmt) (elseBranch : Option Stmt)
  | returnS (e : Option Expr)
  | letS (name : String) (initializer : Option Expr)
  | whileS (cond : Expr) (body : Stmt)

end

/-- Kind projection of an expression node. -/
def Expr.kind : Expr → ExprKind
  | .mk k _ => k

/-- Node id of an expression (`Identifiable for Expr`). -/
def Expr.nid : Expr → Nat
  | .mk _ i => i

/-- Kind projection of a statement node. -/
def Stmt.kind : Stmt → StmtKind
  | .mk k _ => k

/-- Node id of a statement (`Identifiable for Stmt`). -/
def Stmt.nid : Stmt → Nat
  | .mk _ i => i

/-- Display form of a token literal (`Display for Literal`, value.rs):
identifiers, strings and numbers render their payload. The float rendering is
a model choice (MPFR's decimal rendering is not reproduced); no claim
depends on a concrete float rendering. -/
def Lit.display : Lit → String
  | .identifier s => s
  | .str s => s
  | .int i => toString i
  | .float f => if f.nan then "NaN" else toString f.val

/-- Display form of a value (`Display for Value`, value.rs). The source file
defines `Display` only for the `True`/`False`/`Nil`/`Literal` variants; the
container/function renderings live outside `src/src/value.rs`, so they are
given an empty placeholder here and every theorem that involves display
restricts its operands to the four source variants. -/
def Value.display : Value → String
  | .vtrue => "true"
  | .vfalse => "false"
  | .nil => "nil"
  | .lit l => l.display
  | .func _ => ""
  | .list _ => ""
  | .dict _ => ""

/-- True exactly for the four `Value` variants whose behavior
(`Display`, operators) is fully defined inside `src/src/value.rs`. -/
def Value.isScalar : Value → Bool
  | .vtrue | .vfalse | .nil | .lit _ => true
  | _ => false

/-- Truthiness (`Value::is_truthy`): false only for `False` and `Nil`. -/
def Value.isTruthy : Value → Bool
  | .vfalse | .nil => false
  | _ => true

/-- `From<bool> for Value`. -/
def boolToValue (b : Bool) : Value :=
  if b then .vtrue else .vfalse

/-- Logical not (`Not for Value`): negated truthiness, total. -/
def valueNot (v : Value) : Value :=
  boolToValue (!v.isTruthy)

/-- Exact embedding of an integer into the float model
(integer operands promote to float semantics with their exact value). -/
def FloatV.ofInt (i : Int) : FloatV :=
  ⟨false, (i : Rat)⟩

/-- Float addition in the model: exact rational addition, NaN-propagating. -/
def FloatV.add (a b : FloatV) : FloatV :=
  ⟨a.nan || b.nan, a.val + b.val⟩

/-- Float subtraction in the model. -/
def FloatV.sub (a b : FloatV) : FloatV :=
  ⟨a.nan || b.nan, a.val - b.val⟩

/-- Float multiplication in the model. -/
def FloatV.mul (a b : FloatV) : FloatV :=
  ⟨a.nan || b.nan, a.val * b.val⟩

/-- Float division in the model (Rat division, with `x / 0 = 0`; MPFR would
produce an infinity — not modelled, no claim touches float division). -/
def FloatV.div (a b : FloatV) : FloatV :=
  ⟨a.nan || b.nan, a.val / b.val⟩

/-- Float negation in the model. -/
def FloatV.neg (a : FloatV) : FloatV :=
  ⟨a.nan, -a.val⟩

/-- Partial comparison of model floats: `None` if either side is NaN,
otherwise exact numeric comparison (rug compares exactly). -/
def FloatV.pcmp (a b : FloatV) : Option Ordering :=
  if a.nan || b.nan then none else some (compare a.val b.val)

/-- One `usize::MAX` more than any representable `usize` (64-bit platform). -/
def usizeBound : Int := 2 ^ 64

/-- String repetition (`str::repeat`). -/
def strRepeat (s : String) (n : Nat) : String :=
  String.join (List.replicate n s)

/-- Unary negation on literals (`Neg for Literal`, value.rs): integers and
floats only, anything else is `UnsupportedOperation`. -/
def litNeg : Lit → OpRes Lit
  | .int i => .ok (.int (-i))
  | .float f => .ok (.float f.neg)
  | _ => .err .unsupportedOperation

/-- Unary negation on values (`Neg for Value`, value.rs). -/
def valueNeg : Value → OpRes Value
  | .lit l =>
    match litNeg l with
    | .ok l2 => .ok (.lit l2)
    | .err e => .err e
    | .panic => .panic
  | _ => .err .unsupportedOperation

/-- Binary `+` on literals (`Add for Literal`, value.rs lines 71-85): the
match arms follow the source order — numeric pairs with promotion first, then
the two string-concatenation arms over display forms, then failure. -/
def litAdd : Lit → Lit → OpRes Lit
  | .float a, .float b => .ok (.float (a.add b))
  | .int a, .float b => .ok (.float ((FloatV.ofInt a).add b))
  | .float a, .int b => .ok (.float (a.add (FloatV.ofInt b)))
  | .int a, .int b => .ok (.int (a + b))
  | .str a, rhs => .ok (.str (a ++ rhs.display))
  | lhs, .str b => .ok (.str (lhs.display ++ b))
  | _, _ => .err .unsupportedOperation

/-- Binary `+` on values (`Add for Value`, value.rs lines 87-98): literal
pairs delegate to `litAdd`; otherwise a `String` literal on either side
concatenates the display forms; otherwise `UnsupportedOperation`. -/
def valueAdd : Value → Value → OpRes Value
  | .lit a, .lit b =>
    match litAdd a b with
    | .ok l => .ok (.lit l)
    | .err e => .err e
    | .panic => .panic
  | .lit (.str a), rhs => .ok (.lit (.str (a ++ rhs.display)))
  | lhs, .lit (.str b) => .ok (.lit (.str (lhs.display ++ b)))
  | _, _ => .err .unsupportedOperation

/-- Binary `-` on literals (`Sub for Literal`): numeric only. -/
def litSub : Lit → Lit → OpRes Lit
  | .float a, .float b => .ok (.float (a.sub b))
  | .int a, .float b => .ok (.float ((FloatV.ofInt a).sub b))
  | .float a, .int b => .ok (.float (a.sub (FloatV.ofInt b)))
  | .int a, .int b => .ok (.int (a - b))
  | _, _ => .err .unsupportedOperation

/-- Binary `-` on values (`Sub for Value`): literal pairs only. -/
def valueSub : Value → Value → OpRes Value
  | .lit a, .lit b =>
    match litSub a b with
    | .ok l => .ok (.lit l)
    | .err e => .err e
    | .panic => .panic
  | _, _ => .err .unsupportedOperation

/-- Binary `/` on literals (`Div for Literal`): numeric only; integer
division by zero panics (rug), integer division truncates toward zero. -/
def litDiv : Lit → Lit → OpRes Lit
  | .float a, .float b => .ok (.float (a.div b))
  | .int a, .float b => .ok (.float ((FloatV.ofInt a).div b))
  | .float a, .int b => .ok (.float (a.div (FloatV.ofInt b)))
  | .int a, .int b => if b = 0 then .panic else .ok (.int (Int.tdiv a b))
  | _, _ => .err .unsupportedOperation

/-- Binary `/` on values (`Div for Value`): literal pairs only. -/
def valueDiv : Value → Value → OpRes Value
  | .lit a, .lit b =>
    match litDiv a b with
    | .ok l => .ok (.lit l)
    | .err e => .err e
    | .panic => .panic
  | _, _ => .err .unsupportedOperation

/-- Binary `*` on literals (`Mul for Literal`, value.rs lines 150-164):
numeric pairs, plus `String * Integer` and `Integer * String` repetition,
where the integer must convert to `usize` (`0 ≤ n < 2^64` on the modelled
64-bit platform) or the operation fails with `IntegerConversionError`. -/
def litMul : Lit → Lit → OpRes Lit
  | .float a, .float b => .ok (.float (a.mul b))
  | .int a, .float b => .ok (.float ((FloatV.ofInt a).mul b))
  | .float a, .int b => .ok (.float (a.mul (FloatV.ofInt b)))
  | .int a, .int b => .ok (.int (a * b))
  | .str a, .int b =>
    if 0 ≤ b ∧ b < usizeBound then .ok (.str (strRepeat a b.toNat))
    else .err .integerConversionError
  | .int a, .str b =>
    if 0 ≤ a ∧ a < usizeBound then .ok (.str (strRepeat b a.toNat))
    else .err .integerConversionError
  | _, _ => .err .unsupportedOperation

/-- Binary `*` on values (`Mul for Value`): literal pairs only. -/
def valueMul : Value → Value → OpRes Value
  | .lit a, .lit b =>
    match litMul a b with
    | .ok l => .ok (.lit l)
    | .err e => .err e
    | .panic => .panic
  | _, _ => .err .unsupportedOperation

/-- Equality on literals (`PartialEq for Literal`): same sub-kind with equal
payload; float equality is false when either side is NaN (rug/MPFR). -/
def litEq : Lit → Lit → Bool
  | .identifier a, .identifier b => a == b
  | .str a, .str b => a == b
  | .int a, .int b => a == b
  | .float a, .float b => if a.nan || b.nan then false else a.val == b.val
  | _, _ => false

/-- Discriminant tag of a value (for `core::mem::discriminant` equality). -/
def Value.tag : Value → Nat
  | .vtrue => 0
  | .vfalse => 1
  | .nil => 2
  | .lit _ => 3
  | .func _ => 4
  | .list _ => 5
  | .dict _ => 6

/-- Equality on values (`PartialEq for Value`): literal pairs compare
payloads, everything else compares discriminants only. -/
def valueEq : Value → Value → Bool
  | .lit a, .lit b => litEq a b
  | a, b => a.tag == b.tag

/-- Partial comparison of literals (`PartialOrd for Literal`,
value.rs lines 198-210): same-kind numeric (including mixed
Integer/Float), string and identifier pairs; anything else is unordered. -/
def litPartialCmp : Lit → Lit → Option Ordering
  | .float a, .float b => a.pcmp b
  | .int a, .float b => (FloatV.ofInt a).pcmp b
  | .float a, .int b => a.pcmp (FloatV.ofInt b)
  | .int a, .int b => some (compare a b)
  | .str a, .str b => some (compare a b)
  | .identifier a, .identifier b => some (compare a b)
  | _, _ => none

/-- Partial comparison of values (`PartialOrd for Value`, value.rs lines
212-221): literal pairs delegate; `True`/`False` mixed pairs compare as Rust
booleans (`false < true`); every other pair — including two equal booleans —
is unordered. -/
def valuePartialCmp : Value → Value → Option Ordering
  | .lit a, .lit b => litPartialCmp a b
  | .vtrue, .vfalse => some .gt
  | .vfalse, .vtrue => some .lt
  | _, _ => none

/-- Relational `<` (the `PartialOrd::lt` default method). -/
def valueLt (a b : Value) : Bool :=
  valuePartialCmp a b == some .lt

/-- Relational `<=` (the `PartialOrd::le` default method). -/
def valueLe (a b : Value) : Bool :=
  match valuePartialCmp a b with
  | some .lt | some .eq => true
  | _ => false

/-- Relational `>` (the `PartialOrd::gt` default method). -/
def valueGt (a b : Value) : Bool :=
  valuePartialCmp a b == some .gt

/-- Relational `>=` (the `PartialOrd::ge` default method). -/
def valueGe (a b : Value) : Bool :=
  match valuePartialCmp a b with
  | some .gt | some .eq => true
  | _ => false

/-- How `ValueError::into_report` (value.rs lines 286-301) maps operator
failures to diagnostics: both variants — including `IntegerConversionError` —
are rendered as the `UnsupportedOperation` diagnostic. -/
def valueErrToReport : ValueError → ErrKind
  | .unsupportedOperation => .unsupportedOperation
  | .integerConversionError => .unsupportedOperation

/-- Association-list lookup, the model of `HashMap::get`. -/
def lookupA {α β : Type} [DecidableEq α] : List (α × β) → α → Option β
  | [], _ => none
  | (k, v) :: rest, a => if k = a then some v else lookupA rest a

/-- Association-list insert-or-overwrite, the model of `HashMap::insert`. -/
def insertA {α β : Type} [DecidableEq α] : List (α × β) → α → β → List (α × β)
  | [], a, b => [(a, b)]
  | (k, v) :: rest, a, b =>
    if k = a then (k, b) :: rest else (k, v) :: insertA rest a b

/-- One environment frame (`Env` in env.rs): name bindings plus the optional
enclosing frame, here a reference into the store. -/
structure Frame where
  values : List (String × Value)
  enclosing : Option Nat

/-- The store of shared mutable state: environment frames, list payloads and
dict payloads, each addressed by allocation index (the model of the
`Rc<RefCell<...>>` heap). -/
structure Store where
  envs : List Frame
  lists : List (List Value)
  dicts : List (List (Value × Value))

/-- `Env::define`: insert/overwrite in the referenced frame only. -/
def Store.defineIn (σ : Store) (r : Nat) (name : String) (v : Value) :
    Store :=
  match σ.envs.get? r with
  | some f =>
    { σ with envs := σ.envs.set r ⟨insertA f.values name v, f.enclosing⟩ }
  | none => σ

/-- `Env::with_parent`: allocate a fresh empty frame whose parent is the
given reference; returns the new reference and the grown store. -/
def Store.withParent (σ : Store) (parent : Nat) : Nat × Store :=
  (σ.envs.length,
   { σ with envs := σ.envs ++ [⟨[], some parent⟩] })

/-- The `usize` subtraction `distance - 1` of env.rs: wraps around at zero
(release-build two's-complement wraparound on the 64-bit platform). -/
def usizeSub1 (d : Nat) : Nat :=
  if d = 0 then 2 ^ 64 - 1 else d - 1

/-- `Env::get` (env.rs lines 75-87), fueled: when `distance == 0` and the
name is bound in the current frame, return it; otherwise recurse into the
enclosing frame with `distance - 1` (which wraps when `distance == 0`), and
fail with `UndefinedValue` when there is no enclosing frame. The fuel and the
dangling-reference arm are model artifacts, unreachable on the acyclic
stores the evaluator builds. -/
def envGetFuel : Nat → Store → Nat → Nat → String → Except ErrKind Value
  | 0, _, _, _, _ => .error .undefinedValue
  | fuel + 1, σ, r, distance, name =>
    match σ.envs.get? r with
    | none => .error .undefinedValue
    | some f =>
      match (if distance = 0 then lookupA f.values name else none) with
      | some v => .ok v
      | none =>
        match f.enclosing with
        | some p => envGetFuel fuel σ p (usizeSub1 distance) name
        | none => .error .undefinedValue

/-- `Env::get` with fuel covering any chain in the store. -/
def envGet (σ : Store) (r distance : Nat) (name : String) :
    Except ErrKind Value :=
  envGetFuel (σ.envs.length + 1) σ r distance name

/-- `Env::assign` (env.rs lines 60-73), fueled: when `distance == 0` and the
name is already bound in the current frame (`Entry::Occupied`), overwrite it;
otherwise recurse into the enclosing frame with `distance - 1` (wrapping when
`distance == 0`), failing with `UndefinedValue` when there is no enclosing
frame. -/
def envAssignFuel (v : Value) :
    Nat → Store → Nat → Nat → String → Except ErrKind Store
  | 0, _, _, _, _ => .error .undefinedValue
  | fuel + 1, σ, r, distance, name =>
    match σ.envs.get? r with
    | none => .error .undefinedValue
    | some f =>
      if distance = 0 ∧ (lookupA f.values name).isSome then
        .ok { σ with
              envs := σ.envs.set r ⟨insertA f.values name v, f.enclosing⟩ }
      else
        match f.enclosing with
        | some p => envAssignFuel v fuel σ p (usizeSub1 distance) name
        | none => .error .undefinedValue

/-- `Env::assign` with fuel covering any chain in the store. -/
def envAssign (σ : Store) (r distance : Nat) (name : String) (v : Value) :
    Except ErrKind Store :=
  envAssignFuel v (σ.envs.length + 1) σ r distance name

/-- The resolver's hop table (`locals: HashMap<usize, usize>`). -/
abbrev Locals := List (Nat × Nat)

/-- `Ctx::get` (context.rs lines 48-51): look the node id up in the resolver
hop table, falling back to the context's own `size` (the source's
`unwrap_or(&self.size)`, marked `TODO: ??`), then walk the environment. -/
def ctxGet (L : Locals) (σ : Store) (ctx : Ctx) (i : Nat) (name : String) :
    Except ErrKind Value :=
  envGet σ ctx.env ((lookupA L i).getD ctx.size) name

/-- `Ctx::assign` (context.rs lines 38-46): same hop-table lookup with the
`size` fallback, then `Env::assign`. -/
def ctxAssign (L : Locals) (σ : Store) (ctx : Ctx) (i : Nat) (name : String)
    (v : Value) : Except ErrKind Store :=
  envAssign σ ctx.env ((lookupA L i).getD ctx.size) name v

/-- `Ctx::with_parent` (context.rs lines 26-32): child context over a fresh
child frame, with `size` one larger. -/
def Ctx.withParent (σ : Store) (ctx : Ctx) : Ctx × Store :=
  let rσ := σ.withParent ctx.env
  (⟨rσ.1, ctx.size + 1⟩, rσ.2)

/-- The global environment (`Env::global`, env.rs lines 28-35): one root
frame binding the four builtins. -/
def globalStore : Store :=
  ⟨[⟨[("time", .func (.builtin .time)),
      ("print", .func (.builtin .print)),
      ("println", .func (.builtin .println)),
      ("len", .func (.builtin .len))], none⟩], [], []⟩

/-- Resolver state (`Resolver` in resolver.rs): the stack of declaration
scopes (head = innermost, the last element of the source's `Vec`) and the
hop table `locals`. -/
structure RState where
  scopes : List (List (String × Bool))
  locals : Locals
  deriving DecidableEq, Repr

/-- `Resolver::begin_scope`: push a fresh empty innermost scope. -/
def RState.beginScope (R : RState) : RState :=
  ⟨[] :: R.scopes, R.locals⟩

/-- `Resolver::end_scope`: pop the innermost scope. -/
def RState.endScope (R : RState) : RState :=
  ⟨R.scopes.tail, R.locals⟩

/-- `Resolver::declare`: mark the name uninitialized in the innermost scope,
a no-op when the scope stack is empty (top level). -/
def RState.declare (R : RState) (name : String) : RState :=
  match R.scopes with
  | [] => R
  | s :: rest => ⟨insertA s name false :: rest, R.locals⟩

/-- `Resolver::define`: mark the name initialized in the innermost scope,
a no-op when the scope stack is empty (top level). -/
def RState.defineN (R : RState) (name : String) : RState :=
  match R.scopes with
  | [] => R
  | s :: rest => ⟨insertA s name true :: rest, R.locals⟩

/-- Innermost-to-outermost scan of `Resolver::resolve_local`: the depth of
the first scope containing the name, if any. -/
def scanScopes : List (List (String × Bool)) → String → Nat → Option Nat
  | [], _, _ => none
  | s :: rest, name, depth =>
    if (lookupA s name).isSome then some depth
    else scanScopes rest name (depth + 1)

/-- `Resolver::resolve_local`: record the hop count of the first enclosing
scope containing the name against the node id; record nothing when no scope
contains it. -/
def RState.resolveLocal (R : RState) (i : Nat) (name : String) : RState :=
  match scanScopes R.scopes name 0 with
  | some d => ⟨R.scopes, insertA R.locals i d⟩
  | none => R

/-- Declare-and-define every parameter in the innermost scope (the parameter
loop of the `Function` arm of `Resolver::visit_stmt`). -/
def RState.declareParams (R : RState) : List String → RState
  | [] => R
  | p :: ps => ((R.declare p).defineN p).declareParams ps

/-- Result of a resolver traversal: updated state, a diagnostic, or the
fuel artifact. -/
inductive RRes where
  | ok (R : RState)
  | err (e : ErrKind)
  | nofuel
  deriving DecidableEq, Repr

/-- Sequencing on resolver results (the source's `?` operator). -/
def RRes.then (r : RRes) (f : RState → RRes) : RRes :=
  match r with
  | .ok R => f R
  | x => x

/-- Packed argument of the resolver traversal, one constructor per
syntactic category the source's mutual recursion walks. -/
inductive RCall where
  | expr (e : Expr)
  | exprList (es : List Expr)
  | pairList (ps : List (Expr × Expr))
  | stmt (s : Stmt)
  | stmtList (ss : List Stmt)

/-- The resolver traversal (`Resolver::visit_expr` / `visit_stmt`,
resolver.rs lines 56-186), written as one fueled function over the packed
argument so that it is structurally recursive on the fuel. Each arm is the
direct translation of the corresponding source match arm. -/
def resolveGo : Nat → RState → RCall → RRes
  | 0, _, _ => .nofuel
  | fuel + 1, R, c =>
    match c with
    | .expr (.mk k i) =>
      match k with
      | .var name =>
        match R.scopes with
        | s :: _ =>
          if (lookupA s name).getD true = false then
            .err .readLocalVariableInOwnInitializer
          else .ok (R.resolveLocal i name)
        | [] => .ok (R.resolveLocal i name)
      | .assign name value =>
        (resolveGo fuel R (.expr value)).then fun R2 =>
          .ok (R2.resolveLocal i name)
      | .binary l _ r =>
        (resolveGo fuel R (.expr l)).then fun R2 =>
          resolveGo fuel R2 (.expr r)
      | .call callee args =>
        (resolveGo fuel R (.expr callee)).then fun R2 =>
          resolveGo fuel R2 (.exprList args)
      | .grouping v => resolveGo fuel R (.expr v)
      | .literal _ => .ok R
      | .logical l _ r =>
        (resolveGo fuel R (.expr l)).then fun R2 =>
          resolveGo fuel R2 (.expr r)
      | .unary _ r => resolveGo fuel R (.expr r)
      | .get obj _ => resolveGo fuel R (.expr obj)
      | .set obj _ v =>
        (resolveGo fuel R (.expr obj)).then fun R2 =>
          resolveGo fuel R2 (.expr v)
      | .listE items => resolveGo fuel R (.exprList items)
      | .getIndex obj ix =>
        (resolveGo fuel R (.expr obj)).then fun R2 =>
          resolveGo fuel R2 (.expr ix)
      | .setIndex obj ix v =>
        (resolveGo fuel R (.expr obj)).then fun R2 =>
          (resolveGo fuel R2 (.expr ix)).then fun R3 =>
            resolveGo fuel R3 (.expr v)
      | .dictE items => resolveGo fuel R (.pairList items)
    | .exprList [] => .ok R
    | .exprList (e :: es) =>
      (resolveGo fuel R (.expr e)).then fun R2 =>
        resolveGo fuel R2 (.exprList es)
    | .pairList [] => .ok R
    | .pairList ((a, b) :: ps) =>
      (resolveGo fuel R (.expr a)).then fun R2 =>
        (resolveGo fuel R2 (.expr b)).then fun R3 =>
          resolveGo fuel R3 (.pairList ps)
    | .stmt (.mk k _) =>
      match k with
      | .block ss =>
        (resolveGo fuel R.beginScope (.stmtList ss)).then fun R2 =>
          .ok R2.endScope
      | .letS name init =>
        match init with
        | some e =>
          (resolveGo fuel (R.declare name) (.expr e)).then fun R2 =>
            .ok (R2.defineN name)
        | none => .ok ((R.declare name).defineN name)
      | .function name params body =>
        (resolveGo fuel
            (((R.declare name).defineN name).beginScope.declareParams params)
            (.stmtList body)).then fun R2 =>
          .ok R2.endScope
      | .expression e => resolveGo fuel R (.expr e)
      | .ifS cond thenB elseB =>
        (resolveGo fuel R (.expr cond)).then fun R2 =>
          (resolveGo fuel R2 (.stmt thenB)).then fun R3 =>
            match elseB with
            | some e => resolveGo fuel R3 (.stmt e)
            | none => .ok R3
      | .returnS e =>
        match e with
        | some e2 => resolveGo fuel R (.expr e2)
        | none => .ok R
      | .whileS cond body =>
        (resolveGo fuel R (.expr cond)).then fun R2 =>
          resolveGo fuel R2 (.stmt body)
    | .stmtList [] => .ok R
    | .stmtList (s :: ss) =>
      (resolveGo fuel R (.stmt s)).then fun R2 =>
        resolveGo fuel R2 (.stmtList ss)

/-- `Resolver::resolve` (resolver.rs lines 17-25): visit the statements —
but only when the top-level statement list has more than one element — and
return the resulting resolver state (fresh per run, as in `run::inner`). -/
def resolveProgram (fuel : Nat) (ss : List Stmt) : RRes :=
  if ss.length > 1 then resolveGo fuel ⟨[], []⟩ (.stmtList ss)
  else .ok ⟨[], []⟩

/-- Modelled from the spec: the `ValueKey` wrapper used by interpreter.rs for
dict keys is missing from `src/` (only its uses appear), and §9 of the spec
leaves dict-key equality underspecified; key equality is modelled as the
source's `PartialEq for Value`. Lookup of a key in a dict payload. -/
def dictLookup : List (Value × Value) → Value → Option Value
  | [], _ => none
  | (k2, v2) :: rest, k => if valueEq k2 k then some v2 else dictLookup rest k

/-- Modelled from the spec: insert-or-overwrite on a dict payload, with the
same modelled key equality as `dictLookup`. -/
def dictInsert : List (Value × Value) → Value → Value → List (Value × Value)
  | [], k, v => [(k, v)]
  | (k2, v2) :: rest, k, v =>
    if valueEq k2 k then (k2, v) :: rest else (k2, v2) :: dictInsert rest k v

/-- Outcome of an evaluator traversal: a value (`Ok`), a collected argument
list, a collected dict payload, a diagnostic (`RuntimeError::Report`), an
early return (`RuntimeError::Return`), a Rust panic, or the out-of-fuel
artifact. The store is carried by every non-panic outcome. -/
inductive Res where
  | val (v : Value) (σ : Store)
  | vals (vs : List Value) (σ : Store)
  | kvs (d : List (Value × Value)) (σ : Store)
  | report (e : ErrKind) (σ : Store)
  | ret (v : Value) (σ : Store)
  | panic
  | nofuel

/-- Sequencing on single-value outcomes (the source's `?` operator). -/
def Res.thenV (r : Res) (f : Value → Store → Res) : Res :=
  match r with
  | .val v σ => f v σ
  | x => x

/-- Sequencing on argument-list outcomes. -/
def Res.thenVs (r : Res) (f : List Value → Store → Res) : Res :=
  match r with
  | .vals vs σ => f vs σ
  | x => x

/-- Sequencing on dict-payload outcomes. -/
def Res.thenKVs (r : Res) (f : List (Value × Value) → Store → Res) : Res :=
  match r with
  | .kvs d σ => f d σ
  | x => x

/-- Lift a `value.rs` operator result into an evaluator outcome, mapping
operator failures through `ValueError::into_report`. -/
def opToRes : OpRes Value → Store → Res
  | .ok v, σ => .val v σ
  | .err e, σ => .report (valueErrToReport e) σ
  | .panic, _ => .panic

/-- The parameter-binding loop of `Simple::run` (function.rs lines 39-41):
`args[i]` for each parameter index `i` in order; an index beyond the supplied
argument count is a Rust panic (`none`). -/
def bindParams (σ : Store) (r : Nat) :
    List String → List Value → Nat → Option Store
  | [], _, _ => some σ
  | p :: ps, args, i =>
    match args.get? i with
    | none => none
    | some v => bindParams (σ.defineIn r p v) r ps args (i + 1)

/-- The four builtins of `Env::global`. `print`/`println` return `Nil` (their
I/O side effect is not modelled); `len` follows `builtin/list.rs`; `time`
reads the system clock, which is not modellable — Modelled from the spec:
it returns an integer, fixed here to `0` (no claim invokes it). -/
def runBuiltin (b : BuiltinKind) (σ : Store) (args : List Value) : Res :=
  match b with
  | .time => .val (.lit (.int 0)) σ
  | .print => .val .nil σ
  | .println => .val .nil σ
  | .len =>
    match args.head? with
    | some (.list r) =>
      .val (.lit (.int ((σ.lists.get? r).getD []).length)) σ
    | some (.dict r) =>
      .val (.lit (.int ((σ.dicts.get? r).getD []).length)) σ
    | some _ => .val (.lit (.int 0)) σ
    | none => .val .nil σ

/-- Packed argument of the evaluator traversal, one constructor per function
of the source's mutual recursion (`visit_expr`, argument collection, dict
collection, `visit_stmt`, `interpret`, `Function::call`, `Function::run`). -/
inductive ECall where
  | expr (e : Expr)
  | exprList (es : List Expr)
  | dictItems (ps : List (Expr × Expr)) (acc : List (Value × Value))
  | stmt (s : Stmt)
  | stmts (ss : List Stmt)
  | callF (f : Func) (args : List Value)
  | runF (f : Func) (args : List Value)

/-- The evaluator (`interpreter.rs` together with `function.rs`), written as
one fueled function over the packed argument so that it is structurally
recursive on the fuel. Each arm is the direct translation of the
corresponding source match arm; `L` is the resolver's hop table shared by
every context. -/
def eval (L : Locals) : Nat → Store → Ctx → ECall → Res
  | 0, _, _, _ => .nofuel
  | fuel + 1, σ, ctx, c =>
    match c with
    | .expr (.mk k i) =>
      match k with
      | .grouping v => eval L fuel σ ctx (.expr v)
      | .literal v => .val v σ
      | .unary op right =>
        (eval L fuel σ ctx (.expr right)).thenV fun v σ2 =>
          match op with
          | .minus => opToRes (valueNeg v) σ2
          | .bang => .val (valueNot v) σ2
          | _ => .panic
      | .binary l op r =>
        (eval L fuel σ ctx (.expr l)).thenV fun lv σ2 =>
          (eval L fuel σ2 ctx (.expr r)).thenV fun rv σ3 =>
            match op with
            | .minus => opToRes (valueSub lv rv) σ3
            | .slash => opToRes (valueDiv lv rv) σ3
            | .star => opToRes (valueMul lv rv) σ3
            | .plus => opToRes (valueAdd lv rv) σ3
            | .greater => .val (boolToValue (valueGt lv rv)) σ3
            | .greaterEqual => .val (boolToValue (valueGe lv rv)) σ3
            | .less => .val (boolToValue (valueLt lv rv)) σ3
            | .lessEqual => .val (boolToValue (valueLe lv rv)) σ3
            | .equalEqual => .val (boolToValue (valueEq lv rv)) σ3
            | .bangEqual => .val (boolToValue (!valueEq lv rv)) σ3
            | _ => .panic
      | .var name =>
        match ctxGet L σ ctx i name with
        | .ok v => .val v σ
        | .error e => .report e σ
      | .assign name value =>
        (eval L fuel σ ctx (.expr value)).thenV fun v σ2 =>
          match ctxAssign L σ2 ctx i name v with
          | .ok σ3 => .val v σ3
          | .error e => .report e σ2
      | .logical l op r =>
        (eval L fuel σ ctx (.expr l)).thenV fun lv σ2 =>
          if (op = .kwOr ∧ lv.isTruthy = true)
              ∨ (op = .kwAnd ∧ ¬lv.isTruthy = true) then
            .val lv σ2
          else eval L fuel σ2 ctx (.expr r)
      | .call callee args =>
        (eval L fuel σ ctx (.expr callee)).thenV fun cv σ2 =>
          (eval L fuel σ2 ctx (.exprList args)).thenVs fun avs σ3 =>
            match cv with
            | .func f => eval L fuel σ3 ctx (.callF f avs)
            | _ => .report .calleeTypeError σ3
      | .get obj _ =>
        (eval L fuel σ ctx (.expr obj)).thenV fun _ σ2 =>
          .report .instanceTypeError σ2
      | .set obj _ v =>
        (eval L fuel σ ctx (.expr obj)).thenV fun _ σ2 =>
          (eval L fuel σ2 ctx (.expr v)).thenV fun _ σ3 =>
            .report .instanceTypeError σ3
      | .listE items =>
        (eval L fuel σ ctx (.exprList items)).thenVs fun vs σ2 =>
          .val (.list σ2.lists.length)
            { σ2 with lists := σ2.lists ++ [vs] }
      | .dictE items =>
        (eval L fuel σ ctx (.dictItems items [])).thenKVs fun d σ2 =>
          .val (.dict σ2.dicts.length)
            { σ2 with dicts := σ2.dicts ++ [d] }
      | .getIndex obj index =>
        (eval L fuel σ ctx (.expr obj)).thenV fun ov σ2 =>
          match ov with
          | .list r =>
            (eval L fuel σ2 ctx (.expr index)).thenV fun iv σ3 =>
              match iv with
              | .lit (.int i2) =>
                if 0 ≤ i2 ∧ i2 < usizeBound then
                  match ((σ3.lists.get? r).getD []).get? i2.toNat with
                  | some v => .val v σ3
                  | none => .report .listIndexOutOfBoundsError σ3
                else .report .listIndexInvalidError σ3
              | _ => .report .listIndexInvalidError σ3
          | .dict r =>
            (eval L fuel σ2 ctx (.expr index)).thenV fun kv σ3 =>
              match dictLookup ((σ3.dicts.get? r).getD []) kv with
              | some v => .val v σ3
              | none => .panic
          | _ => .report .indexTypeError σ2
      | .setIndex obj index value =>
        (eval L fuel σ ctx (.expr obj)).thenV fun ov σ2 =>
          match ov with
          | .list r =>
            (eval L fuel σ2 ctx (.expr index)).thenV fun iv σ3 =>
              match iv with
              | .lit (.int i2) =>
                if 0 ≤ i2 ∧ i2 < usizeBound then
                  if i2.toNat < ((σ3.lists.get? r).getD []).length then
                    (eval L fuel σ3 ctx (.expr value)).thenV fun nv σ4 =>
                      .val nv
                        { σ4 with
                          lists := σ4.lists.set r
                            (((σ4.lists.get? r).getD []).set i2.toNat nv) }
                  else .report .listIndexOutOfBoundsError σ3
                else .report .listIndexInvalidError σ3
              | _ => .report .listIndexInvalidError σ3
          | .dict r =>
            (eval L fuel σ2 ctx (.expr value)).thenV fun nv σ3 =>
              (eval L fuel σ3 ctx (.expr index)).thenV fun kv σ4 =>
                .val nv
                  { σ4 with
                    dicts := σ4.dicts.set r
                      (dictInsert ((σ4.dicts.get? r).getD []) kv nv) }
          | _ => .report .indexTypeError σ2
    | .exprList [] => .vals [] σ
    | .exprList (e :: es) =>
      (eval L fuel σ ctx (.expr e)).thenV fun v σ2 =>
        (eval L fuel σ2 ctx (.exprList es)).thenVs fun vs σ3 =>
          .vals (v :: vs) σ3
    | .dictItems [] acc => .kvs acc σ
    | .dictItems ((a, b) :: ps) acc =>
      (eval L fuel σ ctx (.expr a)).thenV fun kv σ2 =>
        (eval L fuel σ2 ctx (.expr b)).thenV fun vv σ3 =>
          eval L fuel σ3 ctx (.dictItems ps (dictInsert acc kv vv))
    | .stmt (.mk k i) =>
      match k with
      | .expression e => eval L fuel σ ctx (.expr e)
      | .letS name init =>
        match init with
        | some e =>
          (eval L fuel σ ctx (.expr e)).thenV fun v σ2 =>
            .val .nil (σ2.defineIn ctx.env name v)
        | none => .val .nil (σ.defineIn ctx.env name .nil)
      | .block ss =>
        let cσ := Ctx.withParent σ ctx
        (eval L fuel cσ.2 cσ.1 (.stmts ss)).thenV fun _ σ2 =>
          .val .nil σ2
      | .ifS cond thenB elseB =>
        (eval L fuel σ ctx (.expr cond)).thenV fun cv σ2 =>
          if cv.isTruthy then eval L fuel σ2 ctx (.stmt thenB)
          else
            match elseB with
            | some e => eval L fuel σ2 ctx (.stmt e)
            | none => .val .nil σ2
      | .whileS cond body =>
        (eval L fuel σ ctx (.expr cond)).thenV fun cv σ2 =>
          if cv.isTruthy then
            (eval L fuel σ2 ctx (.stmt body)).thenV fun _ σ3 =>
              eval L fuel σ3 ctx (.stmt (.mk (.whileS cond body) i))
          else .val .nil σ2
      | .function name params body =>
        .val .nil
          (σ.defineIn ctx.env name (.func (.simple name params body ctx)))
      | .returnS e =>
        match e with
        | some e2 =>
          (eval L fuel σ ctx (.expr e2)).thenV fun v σ2 => .ret v σ2
        | none => .ret .nil σ
    | .stmts [] => .val .nil σ
    | .stmts [s] => eval L fuel σ ctx (.stmt s)
    | .stmts (s :: rest) =>
      (eval L fuel σ ctx (.stmt s)).thenV fun _ σ2 =>
        eval L fuel σ2 ctx (.stmts rest)
    | .callF f args =>
      match eval L fuel σ ctx (.runF f args) with
      | .ret v σ2 => .val v σ2
      | x => x
    | .runF f args =>
      match f with
      | .simple _ params body closure =>
        let cσ := Ctx.withParent σ closure
        match bindParams cσ.2 cσ.1.env params args 0 with
        | none => .panic
        | some σ3 => eval L fuel σ3 cσ.1 (.stmts body)
      | .builtin b => runBuiltin b σ args

/-- `interpret` (interpreter.rs lines 47-61) over a context: empty list is
`Nil`, a single statement is evaluated directly, otherwise all but the last
are run for effect and the last one's value is kept. -/
def interpret (L : Locals) (fuel : Nat) (σ : Store) (ctx : Ctx)
    (ss : List Stmt) : Res :=
  eval L fuel σ ctx (.stmts ss)

/-- Outcome of a whole program run as `run::inner` (main.rs lines 49-66)
reports it. -/
inductive RunRes where
  | ok (v : Value) (σ : Store)
  | err (e : ErrKind)
  | panic
  | nofuel

/-- `run::inner` (main.rs lines 49-66): lex/parse are outside the model, so
the pipeline here is resolve, build the root context over the global
environment, interpret — and then convert an `Ok` or a leaked
`RuntimeError::Return` into the program's normal result, and a
`RuntimeError::Report` into an error. -/
def runInner (fuel : Nat) (ss : List Stmt) : RunRes :=
  match resolveProgram fuel ss with
  | .err e => .err e
  | .nofuel => .nofuel
  | .ok R =>
    match interpret R.locals fuel globalStore ⟨0, 0⟩ ss with
    | .val v σ => .ok v σ
    | .ret v σ => .ok v σ
    | .report e _ => .err e
    | .vals _ _ => .panic
    | .kvs _ _ => .panic
    | .panic => .panic
    | .nofuel => .nofuel

/-! Helpers for stating concrete-program facts. -/

/-- Integer-literal expression with the given node id. -/
def litInt (n : Int) (i : Nat) : Expr :=
  .mk (.literal (.lit (.int n))) i

/-- Look a name up in the designated frame of a successful run's store. -/
def RunRes.frameLookup (r : RunRes) (ref : Nat) (n : String) :
    Option Value :=
  match r with
  | .ok _ σ => (σ.envs.get? ref).bind fun f => lookupA f.values n
  | _ => none

/-- Look a name up in the designated frame of an evaluation outcome. -/
def Res.frameLookup (r : Res) (ref : Nat) (n : String) : Option Value :=
  match r with
  | .val _ σ => (σ.envs.get? ref).bind fun f => lookupA f.values n
  | _ => none

/-- The one-statement program `let a = a;`. -/
def c1prog : List Stmt :=
  [.mk (.letS "a" (some (.mk (.var "a") 0))) 1]

/-- A global store in which an outer `a` is already bound to `42`
(the REPL situation after `let a = 42;`). -/
def c1storeOuter : Store :=
  globalStore.defineIn 0 "a" (.lit (.int 42))

/-- C1: the claim says every program containing `let a = a;` is rejected by
the resolver with `ReadLocalVariableInOwnInitializer` before evaluation. It
is false: for the one-statement program `let a = a;` the resolver is skipped
entirely (`Resolver::resolve` only visits when `statements.len() > 1`), the
scope stack stays empty, and evaluation proceeds — with an outer `a = 42`
in scope the statement silently rebinds `a` to that outer value. -/
theorem c1_self_reference_counterexample :
    resolveProgram 10 c1prog = .ok ⟨[], []⟩
      ∧ (interpret [] 10 c1storeOuter ⟨0, 0⟩ c1prog).frameLookup 0 "a"
          = some (.lit (.int 42)) := by
  exact ⟨rfl, rfl⟩

/-- C1 (amended): the resolver rejects `let a = a;` with
`ReadLocalVariableInOwnInitializer` when the let occurs inside a block (a
nonempty scope stack) and the top-level statement list has more than one
statement; the rejection happens during the static pass, independently of
the statements that follow. -/
theorem c1_self_reference_rejected_in_scope
    (k : Nat) (i1 i2 i3 : Nat) (s2 : Stmt) (rest : List Stmt) :
    resolveProgram (k + 9)
        (Stmt.mk (.block [.mk (.letS "a" (some (.mk (.var "a") i1))) i2]) i3
          :: s2 :: rest)
      = .err .readLocalVariableInOwnInitializer := by
  have hlen :
      (Stmt.mk (.block [.mk (.letS "a" (some (.mk (.var "a") i1))) i2]) i3
        :: s2 :: rest).length > 1 := by
    simp
  rw [resolveProgram, if_pos hlen]
  rfl

/-- The program `fn f(a, b) {} f(1)`. -/
def c2prog : List Stmt :=
  [ .mk (.function "f" ["a", "b"] []) 0,
    .mk (.expression (.mk (.call (.mk (.var "f") 1) [litInt 1 2]) 3)) 4 ]

/-- C2: calling the two-parameter function `f` with one argument panics —
`Simple::run` binds `args[i]` positionally without an arity check, so the
out-of-bounds `args[1]` aborts the process instead of producing a reported
error. -/
theorem c2_arity_mismatch_panics :
    runInner 30 c2prog = .panic := by
  rfl

/-- The one-statement program `return 5;`. -/
def c5prog : List Stmt :=
  [.mk (.returnS (some (litInt 5 0))) 1]

/-- C5: the claim says a Return signal never leaks past the outermost
program level and a top-level `return` never becomes the program's normal
result. It is false: for the program `return 5;`, `interpret` completes with
the `Return(5)` outcome, and `run::inner` converts exactly that leaked
signal into the normal program result `Ok(5)`. -/
theorem c5_return_leak_counterexample :
    interpret [] 10 globalStore ⟨0, 0⟩ c5prog
        = .ret (.lit (.int 5)) globalStore
      ∧ runInner 10 c5prog = .ok (.lit (.int 5)) globalStore := by
  exact ⟨rfl, rfl⟩

/-- C5 (amended): a top-level `return v;` does leak: `interpret` completes
with the `Return` outcome carrying `v`, and `run::inner` turns it into the
program's normal `Ok(v)` result instead of reporting it — for every value
`v` and any sufficient fuel. -/
theorem c5_top_level_return_leaks (v : Value) (k i1 i2 : Nat) :
    interpret [] (k + 3) globalStore ⟨0, 0⟩
        [.mk (.returnS (some (.mk (.literal v) i1))) i2]
      = .ret v globalStore
    ∧ runInner (k + 3) [.mk (.returnS (some (.mk (.literal v) i1))) i2]
      = .ok v globalStore := by
  exact ⟨rfl, rfl⟩

/-- The program `let p1 = 0; let p2 = 0;
{ let x = 1; { let x = 2; p1 = x; } p2 = x; }` — the probes `p1`/`p2`
record what `x` reads inside the inner and outer block. -/
def c6prog : List Stmt :=
  [ .mk (.letS "p1" (some (litInt 0 0))) 1,
    .mk (.letS "p2" (some (litInt 0 2))) 3,
    .mk (.block
      [ .mk (.letS "x" (some (litInt 1 4))) 5,
        .mk (.block
          [ .mk (.letS "x" (some (litInt 2 6))) 7,
            .mk (.expression (.mk (.assign "p1" (.mk (.var "x") 8)) 9)) 10
          ]) 11,
        .mk (.expression (.mk (.assign "p2" (.mk (.var "x") 12)) 13)) 14
      ]) 15 ]

/-- C6: shadowing — inside the inner block `x` reads `2` (probe `p1`), after
the inner block exits the outer block's `x` still reads `1` (probe `p2`),
and the inner `x` neither leaks into the global frame nor overwrites the
outer binding. -/
theorem c6_shadowing :
    (runInner 60 c6prog).frameLookup 0 "p1" = some (.lit (.int 2))
    ∧ (runInner 60 c6prog).frameLookup 0 "p2" = some (.lit (.int 1))
    ∧ (runInner 60 c6prog).frameLookup 0 "x" = none := by
  exact ⟨rfl, rfl, rfl⟩

/-- C8: a dict read of a missing key panics — `visit_expr` unwraps the
`HashMap::get` result, so whenever the object evaluates to a dict, the index
evaluates to a key, and that key is absent from the dict's payload at that
point, the evaluation outcome is the Rust abort, not any diagnostic (in
particular not `DictKeyError`, which `report.rs` declares but the
interpreter never constructs). -/
theorem c8_dict_missing_key_panics
    (L : Locals) (fuel : Nat) (σ σ1 σ2 : Store) (ctx : Ctx)
    (eo ei : Expr) (i r : Nat) (k : Value)
    (h1 : eval L fuel σ ctx (.expr eo) = .val (.dict r) σ1)
    (h2 : eval L fuel σ1 ctx (.expr ei) = .val k σ2)
    (h4 : dictLookup ((σ2.dicts.get? r).getD []) k = none) :
    eval L (fuel + 1) σ ctx (.expr (.mk (.getIndex eo ei) i)) = .panic := by
  simp only [List.get?_eq_getElem?] at h4
  simp [eval, h1, Res.thenV, h2, h4]

/-- C8 witness: the program expression `{}[0]` (an empty dict literal indexed
with `0`) aborts. -/
theorem c8_dict_missing_key_panics_witness :
    eval [] 6 globalStore ⟨0, 0⟩
        (.expr (.mk (.getIndex (.mk (.dictE []) 0) (litInt 0 1)) 2))
      = .panic := by
  exact c8_dict_missing_key_panics [] 5 globalStore
    { globalStore with dicts := [[]] } { globalStore with dicts := [[]] }
    ⟨0, 0⟩ (.mk (.dictE []) 0) (litInt 0 1) 2 0 (.lit (.int 0))
    rfl rfl rfl

/-- C9: string coercion. `+` with a `String` literal on either side
concatenates the display forms of the two operands; `*` between a `String`
and an `Integer` (in either order) repeats the string when the integer fits
the 64-bit `usize`, and fails with `IntegerConversionError` otherwise; at
the evaluator level that conversion failure is reported through
`ValueError::into_report` (as the `UnsupportedOperation` diagnostic). The
operands range over the four `Value` variants defined in value.rs. -/
theorem c9_string_coercion :
    (∀ (s : String) (v : Value), v.isScalar = true →
       valueAdd (.lit (.str s)) v = .ok (.lit (.str (s ++ v.display))))
    ∧ (∀ (s : String) (v : Value), v.isScalar = true →
       valueAdd v (.lit (.str s)) = .ok (.lit (.str (v.display ++ s))))
    ∧ (∀ (s : String) (n : Int),
       litMul (.str s) (.int n)
         = if 0 ≤ n ∧ n < usizeBound then .ok (.str (strRepeat s n.toNat))
           else .err .integerConversionError)
    ∧ (∀ (s : String) (n : Int),
       litMul (.int n) (.str s)
         = if 0 ≤ n ∧ n < usizeBound then .ok (.str (strRepeat s n.toNat))
           else .err .integerConversionError)
    ∧ (∀ (L : Locals) (fuel : Nat) (σ : Store) (ctx : Ctx) (s : String)
         (n : Int) (i j m : Nat),
       eval L (fuel + 2) σ ctx
           (.expr (.mk (.binary (.mk (.literal (.lit (.str s))) i) .star
             (.mk (.literal (.lit (.int n))) j)) m))
         = if 0 ≤ n ∧ n < usizeBound then
             .val (.lit (.str (strRepeat s n.toNat))) σ
           else .report .unsupportedOperation σ) := by
  refine ⟨?_, ?_, ?_, ?_, ?_⟩
  · intro s v hv
    cases v with
    | lit l => cases l <;> simp [valueAdd, litAdd, Value.display]
    | vtrue => rfl
    | vfalse => rfl
    | nil => rfl
    | func f => simp [Value.isScalar] at hv
    | list r => simp [Value.isScalar] at hv
    | dict r => simp [Value.isScalar] at hv
  · intro s v hv
    cases v with
    | lit l => cases l <;> simp [valueAdd, litAdd, Value.display, Lit.display]
    | vtrue => rfl
    | vfalse => rfl
    | nil => rfl
    | func f => simp [Value.isScalar] at hv
    | list r => simp [Value.isScalar] at hv
    | dict r => simp [Value.isScalar] at hv
  · intro s n; rfl
  · intro s n; rfl
  · intro L fuel σ ctx s n i j m
    by_cases hc : 0 ≤ n ∧ n < usizeBound <;>
      simp [eval, Res.thenV, opToRes, valueMul, litMul, valueErrToReport, hc]

/-- C9 witness: the spec's concrete examples — `"a" + 1` is `"a1"` and
`"ab" * 3` is `"ababab"`. -/
theorem c9_string_coercion_witness :
    valueAdd (.lit (.str "a")) (.lit (.int 1)) = .ok (.lit (.str "a1"))
    ∧ litMul (.str "ab") (.int 3) = .ok (.str "ababab") := by
  constructor
  · have h := c9_string_coercion.1 "a" (.lit (.int 1)) rfl
    simpa using h
  · have h := c9_string_coercion.2.2.1 "ab" 3
    simpa using h

/-- The spec's three comparable shapes for C7 — same-kind numeric (with the
mixed Integer/Float pairs), string, and identifier literal pairs. This is
the refinement-side definition following the spec's words, to be compared
with the source's `PartialOrd`. -/
def litComparableKind : Lit → Lit → Bool
  | .int _, .int _ => true
  | .int _, .float _ => true
  | .float _, .int _ => true
  | .float _, .float _ => true
  | .str _, .str _ => true
  | .identifier _, .identifier _ => true
  | _, _ => false

/-- C7: the claim says every pair outside the three literal shapes is
unordered, so every relational operator on it evaluates to `false`. It is
false for the mixed boolean pair: `false < true` evaluates to `true`
(`PartialOrd for Value` orders `True`/`False` like Rust booleans). -/
theorem c7_relational_counterexample :
    valueLt Value.vfalse Value.vtrue = true
      ∧ valueGt Value.vtrue Value.vfalse = true := by
  exact ⟨rfl, rfl⟩

/-- C7 (amended): the relational operators always produce a boolean and
never fail; every unordered pair yields `false` for all four operators;
every pair that is neither a comparable-shaped literal pair nor one of the
two mixed boolean pairs is unordered; the mixed boolean pairs are ordered
`false < true` while equal booleans are unordered; and at the evaluator
level a relational binary expression always evaluates to the corresponding
boolean value without touching the error channel. -/
theorem c7_relational_total :
    (∀ v w : Value, valuePartialCmp v w = none →
       valueLt v w = false ∧ valueLe v w = false
         ∧ valueGt v w = false ∧ valueGe v w = false)
    ∧ (∀ v w : Value,
        (∀ a b, v = .lit a → w = .lit b → litComparableKind a b = false) →
        ¬(v = .vtrue ∧ w = .vfalse) → ¬(v = .vfalse ∧ w = .vtrue) →
        valuePartialCmp v w = none)
    ∧ (valuePartialCmp .vtrue .vfalse = some .gt
        ∧ valuePartialCmp .vfalse .vtrue = some .lt
        ∧ valuePartialCmp .vtrue .vtrue = none
        ∧ valuePartialCmp .vfalse .vfalse = none)
    ∧ (∀ (L : Locals) (fuel : Nat) (σ : Store) (ctx : Ctx) (l r : Value)
         (i j m : Nat),
        eval L (fuel + 2) σ ctx
            (.expr (.mk (.binary (.mk (.literal l) i) .less
              (.mk (.literal r) j)) m))
          = .val (boolToValue (valueLt l r)) σ
        ∧ eval L (fuel + 2) σ ctx
            (.expr (.mk (.binary (.mk (.literal l) i) .lessEqual
              (.mk (.literal r) j)) m))
          = .val (boolToValue (valueLe l r)) σ
        ∧ eval L (fuel + 2) σ ctx
            (.expr (.mk (.binary (.mk (.literal l) i) .greater
              (.mk (.literal r) j)) m))
          = .val (boolToValue (valueGt l r)) σ
        ∧ eval L (fuel + 2) σ ctx
            (.expr (.mk (.binary (.mk (.literal l) i) .greaterEqual
              (.mk (.literal r) j)) m))
          = .val (boolToValue (valueGe l r)) σ) := by
  refine ⟨?_, ?_, ⟨rfl, rfl, rfl, rfl⟩, ?_⟩
  · intro v w h
    simp [valueLt, valueLe, valueGt, valueGe, h]
  · intro v w hlit htf hft
    cases v <;> cases w <;> try rfl
    · exact absurd ⟨rfl, rfl⟩ htf
    · exact absurd ⟨rfl, rfl⟩ hft
    · rename_i a b
      have hab := hlit a b rfl rfl
      cases a <;> cases b <;>
        simp_all [valuePartialCmp, litComparableKind, litPartialCmp]
  · intro L fuel σ ctx l r i j m
    exact ⟨rfl, rfl, rfl, rfl⟩

/-- C7 witness: concrete applications of the amended theorem — `Nil`
compared with `true` is unordered (all four operators `false`), and an
integer compared with `true` is unordered. -/
theorem c7_relational_total_witness :
    (valueLt Value.nil Value.vtrue = false
      ∧ valueLe Value.nil Value.vtrue = false
      ∧ valueGt Value.nil Value.vtrue = false
      ∧ valueGe Value.nil Value.vtrue = false)
    ∧ valuePartialCmp (.lit (.int 0)) .vtrue = none := by
  constructor
  · exact c7_relational_total.1 .nil .vtrue rfl
  · exact c7_relational_total.2.1 (.lit (.int 0)) .vtrue
      (fun a b _ hb => nomatch hb)
      (fun h => nomatch h.1) (fun h => nomatch h.1)

/-- C4: return unwinding. (1) `return e;` produces the distinct `Return`
outcome carrying the value of `e`; (2) a bare `return;` produces `Return`
carrying `Nil`; (3) a `Return` arising from a statement terminates the
statement list right there — the following sibling statements are not
executed and the store is exactly the one the returning statement produced;
(4)-(6) `Block`, a truthy `If`, and a truthy `While` iteration each pass a
`Return` from their interior through unchanged; (7) the function-call
boundary (`Function::call`) converts a `Return` from the body into the
call's normal value; (8) it passes a diagnosable `Report` through unchanged
(`Return` is never confused with the error channel); (9) a call expression
whose callee and arguments evaluate normally yields exactly the converted
call outcome. -/
theorem c4_return_unwinding :
    (∀ (L : Locals) (fuel : Nat) (σ : Store) (ctx : Ctx) (e : Expr)
       (i : Nat) (v : Value) (σ2 : Store),
       eval L fuel σ ctx (.expr e) = .val v σ2 →
       eval L (fuel + 1) σ ctx (.stmt (.mk (.returnS (some e)) i))
         = .ret v σ2)
    ∧ (∀ (L : Locals) (fuel : Nat) (σ : Store) (ctx : Ctx) (i : Nat),
       eval L (fuel + 1) σ ctx (.stmt (.mk (.returnS none) i))
         = .ret .nil σ)
    ∧ (∀ (L : Locals) (fuel : Nat) (σ : Store) (ctx : Ctx) (s : Stmt)
       (v : Value) (σ2 : Store) (rest : List Stmt),
       eval L fuel σ ctx (.stmt s) = .ret v σ2 →
       eval L (fuel + 1) σ ctx (.stmts (s :: rest)) = .ret v σ2)
    ∧ (∀ (L : Locals) (fuel : Nat) (σ : Store) (ctx : Ctx)
       (ss : List Stmt) (i : Nat) (v : Value) (σ2 : Store),
       eval L fuel (Ctx.withParent σ ctx).2 (Ctx.withParent σ ctx).1
           (.stmts ss) = .ret v σ2 →
       eval L (fuel + 1) σ ctx (.stmt (.mk (.block ss) i)) = .ret v σ2)
    ∧ (∀ (L : Locals) (fuel : Nat) (σ σ2 σ3 : Store) (ctx : Ctx)
       (c t : _) (eb : Option Stmt) (i : Nat) (cv v : Value),
       eval L fuel σ ctx (.expr c) = .val cv σ2 →
       cv.isTruthy = true →
       eval L fuel σ2 ctx (.stmt t) = .ret v σ3 →
       eval L (fuel + 1) σ ctx (.stmt (.mk (.ifS c t eb) i)) = .ret v σ3)
    ∧ (∀ (L : Locals) (fuel : Nat) (σ σ2 σ3 : Store) (ctx : Ctx)
       (c : Expr) (b : Stmt) (i : Nat) (cv v : Value),
       eval L fuel σ ctx (.expr c) = .val cv σ2 →
       cv.isTruthy = true →
       eval L fuel σ2 ctx (.stmt b) = .ret v σ3 →
       eval L (fuel + 1) σ ctx (.stmt (.mk (.whileS c b) i)) = .ret v σ3)
    ∧ (∀ (L : Locals) (fuel : Nat) (σ σ2 : Store) (ctx : Ctx) (f : Func)
       (args : List Value) (v : Value),
       eval L fuel σ ctx (.runF f args) = .ret v σ2 →
       eval L (fuel + 1) σ ctx (.callF f args) = .val v σ2)
    ∧ (∀ (L : Locals) (fuel : Nat) (σ σ2 : Store) (ctx : Ctx) (f : Func)
       (args : List Value) (e : ErrKind),
       eval L fuel σ ctx (.runF f args) = .report e σ2 →
       eval L (fuel + 1) σ ctx (.callF f args) = .report e σ2)
    ∧ (∀ (L : Locals) (fuel : Nat) (σ σ2 σ3 : Store) (ctx : Ctx)
       (ce : Expr) (args : List Expr) (i : Nat) (f : Func)
       (avs : List Value) (out : Res),
       eval L fuel σ ctx (.expr ce) = .val (.func f) σ2 →
       eval L fuel σ2 ctx (.exprList args) = .vals avs σ3 →
       eval L fuel σ3 ctx (.callF f avs) = out →
       eval L (fuel + 1) σ ctx (.expr (.mk (.call ce args) i)) = out) := by
  refine ⟨?_, ?_, ?_, ?_, ?_, ?_, ?_, ?_, ?_⟩
  · intro L fuel σ ctx e i v σ2 h
    simp [eval, h, Res.thenV]
  · intro L fuel σ ctx i
    rfl
  · intro L fuel σ ctx s v σ2 rest h
    cases rest with
    | nil => simpa [eval] using h
    | cons s2 rest2 => simp [eval, h, Res.thenV]
  · intro L fuel σ ctx ss i v σ2 h
    simp [eval, h, Res.thenV]
  · intro L fuel σ σ2 σ3 ctx c t eb i cv v h1 h2 h3
    simp [eval, h1, Res.thenV, h2, h3]
  · intro L fuel σ σ2 σ3 ctx c b i cv v h1 h2 h3
    simp [eval, h1, Res.thenV, h2, h3]
  · intro L fuel σ σ2 ctx f args v h
    simp [eval, h]
  · intro L fuel σ σ2 ctx f args e h
    simp [eval, h]
  · intro L fuel σ σ2 σ3 ctx ce args i f avs out h1 h2 h3
    simp [eval, h1, Res.thenV, h2, Res.thenVs, h3]

/-- A store whose environment frames form one linear chain: frame `i`'s
parent is frame `i - 1` and frame `0` is the root (for stating C3). -/
def IsChain (σ : Store) : Prop :=
  ∀ i f, σ.envs.get? i = some f →
    f.enclosing = if i = 0 then none else some (i - 1)

/-- An in-bounds index has some frame. -/
theorem frameAt (l : List Frame) (r : Nat) (hr : r < l.length) :
    ∃ f, l.get? r = some f :=
  ⟨_, List.get?_eq_get hr⟩

/-- Walking lemma for `Env::get`: with `d ≤ r` hops available, the walk
reaches frame `r - d` with `distance` exhausted, without consulting any
intermediate frame's bindings. -/
theorem envGetFuel_walk (σ : Store) (name : String) (hC : IsChain σ) :
    ∀ (d fuel r : Nat), r < σ.envs.length → d ≤ r →
      envGetFuel (fuel + d + 1) σ r d name
        = envGetFuel (fuel + 1) σ (r - d) 0 name := by
  intro d
  induction d with
  | zero => intro fuel r _ _; rfl
  | succ d ih =>
    intro fuel r hr hd
    obtain ⟨fr, hf⟩ := frameAt σ.envs r hr
    have hE := hC r _ hf
    rw [if_neg (by omega)] at hE
    have harith : fuel + (d + 1) + 1 = (fuel + d + 1) + 1 := by omega
    rw [harith, envGetFuel, hf]
    simp [hE, usizeSub1]
    rw [ih fuel (r - 1) (by omega) (by omega)]
    have hst : r - 1 - d = r - (d + 1) := by omega
    rw [hst]

/-- Overshoot lemma for `Env::get`: when the remaining distance exceeds the
frames below, the walk falls off the root and fails with `UndefinedValue`
(this also covers the wrapped-around distance after a miss). -/
theorem envGetFuel_big (σ : Store) (name : String) (hC : IsChain σ) :
    ∀ (r fuel D : Nat), r < σ.envs.length → r < D → r < fuel →
      envGetFuel fuel σ r D name = .error .undefinedValue := by
  intro r
  induction r with
  | zero =>
    intro fuel D hr hD hfuel
    cases fuel with
    | zero => omega
    | succ f =>
      obtain ⟨fr, hf⟩ := frameAt σ.envs 0 hr
      have hE := hC 0 _ hf
      rw [if_pos rfl] at hE
      have hD2 : D ≠ 0 := by omega
      rw [envGetFuel, hf]
      simp [hE, hD2]
  | succ r ih =>
    intro fuel D hr hD hfuel
    cases fuel with
    | zero => omega
    | succ f =>
      obtain ⟨fr, hf⟩ := frameAt σ.envs (r + 1) hr
      have hE := hC (r + 1) _ hf
      rw [if_neg (by omega)] at hE
      simp only [Nat.add_sub_cancel] at hE
      have hD2 : D ≠ 0 := by omega
      rw [envGetFuel, hf]
      simp [hE, hD2, usizeSub1]
      exact ih f (D - 1) (by omega) (by omega) (by omega)

/-- Miss lemma for `Env::get` at the target frame: the name is absent where
`distance` ran out, so the wrapped walk continues to the root and fails. -/
theorem envGetFuel_zero_absent (σ : Store) (name : String) (hC : IsChain σ)
    (hlen : σ.envs.length < 2 ^ 64) :
    ∀ (t fuel : Nat) (f : Frame), t < σ.envs.length → t ≤ fuel →
      σ.envs.get? t = some f → lookupA f.values name = none →
      envGetFuel (fuel + 1) σ t 0 name = .error .undefinedValue := by
  intro t fuel f ht hfuel hf hl
  have hE := hC t _ hf
  cases t with
  | zero =>
    rw [if_pos rfl] at hE
    rw [envGetFuel, hf]
    simp [hl, hE]
  | succ t2 =>
    rw [if_neg (by omega)] at hE
    simp only [Nat.add_sub_cancel] at hE
    rw [envGetFuel, hf]
    simp [hl, hE, usizeSub1]
    exact envGetFuel_big σ name hC t2 fuel (2 ^ 64 - 1)
      (by omega) (by omega) (by omega)

/-- Walking lemma for `Env::assign`, parallel to `envGetFuel_walk`. -/
theorem envAssignFuel_walk (σ : Store) (name : String) (v : Value)
    (hC : IsChain σ) :
    ∀ (d fuel r : Nat), r < σ.envs.length → d ≤ r →
      envAssignFuel v (fuel + d + 1) σ r d name
        = envAssignFuel v (fuel + 1) σ (r - d) 0 name := by
  intro d
  induction d with
  | zero => intro fuel r _ _; rfl
  | succ d ih =>
    intro fuel r hr hd
    obtain ⟨fr, hf⟩ := frameAt σ.envs r hr
    have hE := hC r _ hf
    rw [if_neg (by omega)] at hE
    have harith : fuel + (d + 1) + 1 = (fuel + d + 1) + 1 := by omega
    rw [harith, envAssignFuel, hf]
    simp [hE, usizeSub1]
    rw [ih fuel (r - 1) (by omega) (by omega)]
    have hst : r - 1 - d = r - (d + 1) := by omega
    rw [hst]

/-- Overshoot lemma for `Env::assign`, parallel to `envGetFuel_big`. -/
theorem envAssignFuel_big (σ : Store) (name : String) (v : Value)
    (hC : IsChain σ) :
    ∀ (r fuel D : Nat), r < σ.envs.length → r < D → r < fuel →
      envAssignFuel v fuel σ r D name = .error .undefinedValue := by
  intro r
  induction r with
  | zero =>
    intro fuel D hr hD hfuel
    cases fuel with
    | zero => omega
    | succ f =>
      obtain ⟨fr, hf⟩ := frameAt σ.envs 0 hr
      have hE := hC 0 _ hf
      rw [if_pos rfl] at hE
      have hD2 : D ≠ 0 := by omega
      rw [envAssignFuel, hf]
      simp [hE, hD2]
  | succ r ih =>
    intro fuel D hr hD hfuel
    cases fuel with
    | zero => omega
    | succ f =>
      obtain ⟨fr, hf⟩ := frameAt σ.envs (r + 1) hr
      have hE := hC (r + 1) _ hf
      rw [if_neg (by omega)] at hE
      simp only [Nat.add_sub_cancel] at hE
      have hD2 : D ≠ 0 := by omega
      rw [envAssignFuel, hf]
      simp [hE, hD2, usizeSub1]
      exact ih f (D - 1) (by omega) (by omega) (by omega)

/-- Miss lemma for `Env::assign` at the target frame. -/
theorem envAssignFuel_zero_absent (σ : Store) (name : String) (v : Value)
    (hC : IsChain σ) (hlen : σ.envs.length < 2 ^ 64) :
    ∀ (t fuel : Nat) (f : Frame), t < σ.envs.length → t ≤ fuel →
      σ.envs.get? t = some f → lookupA f.values name = none →
      envAssignFuel v (fuel + 1) σ t 0 name = .error .undefinedValue := by
  intro t fuel f ht hfuel hf hl
  have hE := hC t _ hf
  cases t with
  | zero =>
    rw [if_pos rfl] at hE
    rw [envAssignFuel, hf]
    simp [hl, hE]
  | succ t2 =>
    rw [if_neg (by omega)] at hE
    simp only [Nat.add_sub_cancel] at hE
    rw [envAssignFuel, hf]
    simp [hl, hE, usizeSub1]
    exact envAssignFuel_big σ name v hC t2 fuel (2 ^ 64 - 1)
      (by omega) (by omega) (by omega)

/-- C3: on a linear environment chain of `n < 2^64` frames, `Env::assign`
with distance `d` (called on the chain head, frame `n - 1`) succeeds exactly
when the name is already bound in the frame at exactly depth `d`, in which
case it overwrites that binding and leaves every other frame untouched
(`List.set` at that frame only), and `Env::get` returns exactly the value
bound there; when the name is absent at that exact depth, or the chain is
shorter than the distance, both operations fail with `UndefinedValue` — no
binding at any other depth is consulted or written. -/
theorem c3_env_exact_depth
    (σ : Store) (d : Nat) (name : String) (v : Value)
    (hC : IsChain σ) (hpos : 0 < σ.envs.length)
    (hlen : σ.envs.length < 2 ^ 64) :
    (∀ (ft : Frame) (w : Value),
       d < σ.envs.length →
       σ.envs.get? (σ.envs.length - 1 - d) = some ft →
       lookupA ft.values name = some w →
       envGet σ (σ.envs.length - 1) d name = .ok w
       ∧ envAssign σ (σ.envs.length - 1) d name v
         = .ok { σ with
                 envs := σ.envs.set (σ.envs.length - 1 - d)
                           (Frame.mk (insertA ft.values name v)
                             ft.enclosing) })
    ∧ (∀ ft : Frame,
       d < σ.envs.length →
       σ.envs.get? (σ.envs.length - 1 - d) = some ft →
       lookupA ft.values name = none →
       envGet σ (σ.envs.length - 1) d name = .error .undefinedValue
       ∧ envAssign σ (σ.envs.length - 1) d name v
         = .error .undefinedValue)
    ∧ (σ.envs.length ≤ d →
       envGet σ (σ.envs.length - 1) d name = .error .undefinedValue
       ∧ envAssign σ (σ.envs.length - 1) d name v
         = .error .undefinedValue) := by
  refine ⟨?_, ?_, ?_⟩
  · intro ft w hd hft hl
    have hfuel : σ.envs.length + 1 = (σ.envs.length - d) + d + 1 := by omega
    constructor
    · rw [envGet, hfuel,
        envGetFuel_walk σ name hC d (σ.envs.length - d)
          (σ.envs.length - 1) (by omega) (by omega)]
      rw [envGetFuel, hft]
      simp [hl]
    · rw [envAssign, hfuel,
        envAssignFuel_walk σ name v hC d (σ.envs.length - d)
          (σ.envs.length - 1) (by omega) (by omega)]
      rw [envAssignFuel, hft]
      simp [hl]
  · intro ft hd hft hl
    have hfuel : σ.envs.length + 1 = (σ.envs.length - d) + d + 1 := by omega
    constructor
    · rw [envGet, hfuel,
        envGetFuel_walk σ name hC d (σ.envs.length - d)
          (σ.envs.length - 1) (by omega) (by omega)]
      exact envGetFuel_zero_absent σ name hC hlen
        (σ.envs.length - 1 - d) (σ.envs.length - d) ft
        (by omega) (by omega) hft hl
    · rw [envAssign, hfuel,
        envAssignFuel_walk σ name v hC d (σ.envs.length - d)
          (σ.envs.length - 1) (by omega) (by omega)]
      exact envAssignFuel_zero_absent σ name v hC hlen
        (σ.envs.length - 1 - d) (σ.envs.length - d) ft
        (by omega) (by omega) hft hl
  · intro hd
    constructor
    · exact envGetFuel_big σ name hC (σ.envs.length - 1)
        (σ.envs.length + 1) d (by omega) (by omega) (by omega)
    · exact envAssignFuel_big σ name v hC (σ.envs.length - 1)
        (σ.envs.length + 1) d (by omega) (by omega) (by omega)

/-- A concrete two-frame chain for the C3 witness: global-like root binding
`a`, child frame binding `b`. -/
def c3chain : Store :=
  ⟨[⟨[("a", .nil)], none⟩, ⟨[("b", .vtrue)], some 0⟩], [], []⟩

/-- C3 witness: on the concrete two-frame chain, `get`/`assign` at distance
`1` from the head find `a` in the root frame and overwrite exactly there. -/
theorem c3_env_exact_depth_witness :
    envGet c3chain 1 1 "a" = .ok .nil
    ∧ envAssign c3chain 1 1 "a" .vfalse
      = .ok ⟨[⟨[("a", .vfalse)], none⟩, ⟨[("b", .vtrue)], some 0⟩],
             [], []⟩ := by
  have hC : IsChain c3chain := by
    intro i f h
    match i, h with
    | 0, h => cases h; rfl
    | 1, h => cases h; rfl
  have h := (c3_env_exact_depth c3chain 1 "a" .vfalse hC
      (by norm_num [c3chain]) (by norm_num [c3chain])).1
      ⟨[("a", .nil)], none⟩ .nil (by norm_num [c3chain]) rfl rfl
  exact ⟨h.1, h.2⟩

/-- C4 witness: concrete applications — `return 7;` produces `Return(7)`
and is not executed past (the sibling `let q = 0;` leaves no trace), and
calling the parameterless function `fn g() { return 7; }` yields `7`
normally. -/
theorem c4_return_unwinding_witness :
    eval [] 6 globalStore ⟨0, 0⟩
        (.stmts [Stmt.mk (.returnS (some (litInt 7 0))) 1,
                 Stmt.mk (.letS "q" none) 2])
      = .ret (.lit (.int 7)) globalStore
    ∧ eval [] 8 globalStore ⟨0, 0⟩
        (.callF (.simple "g" [] [.mk (.returnS (some (litInt 7 0))) 1]
          ⟨0, 0⟩) [])
      = .val (.lit (.int 7)) (globalStore.withParent 0).2 := by
  constructor
  · exact c4_return_unwinding.2.2.1 [] 5 globalStore ⟨0, 0⟩
      (.mk (.returnS (some (litInt 7 0))) 1) (.lit (.int 7)) globalStore
      [Stmt.mk (.letS "q" none) 2] rfl
  · exact c4_return_unwinding.2.2.2.2.2.2.1 [] 7 globalStore
      (globalStore.withParent 0).2 ⟨0, 0⟩
      (.simple "g" [] [.mk (.returnS (some (litInt 7 0))) 1] ⟨0, 0⟩) []
      (.lit (.int 7)) rfl

/-- `Resolver::resolve_local` never touches the scope stack. -/
theorem RState.resolveLocal_scopes (R : RState) (i : Nat) (n : String) :
    (R.resolveLocal i n).scopes = R.scopes := by
  unfold RState.resolveLocal
  cases scanScopes R.scopes n 0 <;> rfl

/-- `Resolver::declare` preserves the scope-stack depth. -/
theorem RState.declare_len (R : RState) (n : String) :
    (R.declare n).scopes.length = R.scopes.length := by
  rcases R with ⟨scopes, locals⟩
  cases scopes <;> rfl

/-- `Resolver::define` preserves the scope-stack depth. -/
theorem RState.defineN_len (R : RState) (n : String) :
    (R.defineN n).scopes.length = R.scopes.length := by
  rcases R with ⟨scopes, locals⟩
  cases scopes <;> rfl

/-- The parameter loop preserves the scope-stack depth. -/
theorem RState.declareParams_len (ps : List String) :
    ∀ R : RState, (R.declareParams ps).scopes.length = R.scopes.length := by
  induction ps with
  | nil => intro R; rfl
  | cons p ps ih =>
    intro R
    rw [RState.declareParams, ih, RState.defineN_len, RState.declare_len]

/-- On an empty scope stack, `resolve_local` records nothing. -/
theorem RState.resolveLocal_of_nil {R : RState} (hs : R.scopes = [])
    (i : Nat) (n : String) : R.resolveLocal i n = R := by
  unfold RState.resolveLocal
  rw [hs]
  rfl

/-- On an empty scope stack, `declare` is a no-op. -/
theorem RState.declare_of_nil {R : RState} (hs : R.scopes = [])
    (n : String) : R.declare n = R := by
  unfold RState.declare
  rw [hs]

/-- On an empty scope stack, `define` is a no-op. -/
theorem RState.defineN_of_nil {R : RState} (hs : R.scopes = [])
    (n : String) : R.defineN n = R := by
  unfold RState.defineN
  rw [hs]

/-- Inversion of the resolver's `?`-sequencing: a successful sequence has a
successful first stage. -/
theorem RRes.then_ok {r : RRes} {f : RState → RRes} {R2 : RState}
    (h : r.then f = .ok R2) : ∃ R3, r = .ok R3 ∧ f R3 = .ok R2 := by
  cases r with
  | ok R3 => simp only [RRes.then] at h; exact ⟨R3, rfl, h⟩
  | err e => simp [RRes.then] at h
  | nofuel => simp [RRes.then] at h

/-- The resolver traversal preserves the scope-stack depth: `begin_scope`
and `end_scope` are balanced inside each `Block`/`Function` arm, and nothing
else changes the stack's length. -/
theorem resolveGo_scopes_len :
    ∀ (fuel : Nat) (c : RCall) (R R2 : RState),
      resolveGo fuel R c = .ok R2 →
      R2.scopes.length = R.scopes.length := by
  intro fuel
  induction fuel with
  | zero => intro c R R2 h; simp [resolveGo] at h
  | succ fuel ih =>
    intro c R R2 h
    cases c with
    | expr e =>
      obtain ⟨k, i⟩ := e
      cases k with
      | var name =>
        simp only [resolveGo] at h
        split at h
        · split at h
          · exact RRes.noConfusion h
          · rw [← RRes.ok.inj h, RState.resolveLocal_scopes]
        · rw [← RRes.ok.inj h, RState.resolveLocal_scopes]
      | assign name value =>
        simp only [resolveGo] at h
        obtain ⟨R3, h1, h2⟩ := RRes.then_ok h
        rw [← RRes.ok.inj h2, RState.resolveLocal_scopes]
        exact ih _ _ _ h1
      | binary l op r =>
        simp only [resolveGo] at h
        obtain ⟨R3, h1, h2⟩ := RRes.then_ok h
        exact (ih _ _ _ h2).trans (ih _ _ _ h1)
      | call callee args =>
        simp only [resolveGo] at h
        obtain ⟨R3, h1, h2⟩ := RRes.then_ok h
        exact (ih _ _ _ h2).trans (ih _ _ _ h1)
      | grouping v =>
        simp only [resolveGo] at h
        exact ih _ _ _ h
      | literal v =>
        simp only [resolveGo] at h
        rw [← RRes.ok.inj h]
      | logical l op r =>
        simp only [resolveGo] at h
        obtain ⟨R3, h1, h2⟩ := RRes.then_ok h
        exact (ih _ _ _ h2).trans (ih _ _ _ h1)
      | unary op r =>
        simp only [resolveGo] at h
        exact ih _ _ _ h
      | get obj name =>
        simp only [resolveGo] at h
        exact ih _ _ _ h
      | set obj name v =>
        simp only [resolveGo] at h
        obtain ⟨R3, h1, h2⟩ := RRes.then_ok h
        exact (ih _ _ _ h2).trans (ih _ _ _ h1)
      | listE items =>
        simp only [resolveGo] at h
        exact ih _ _ _ h
      | getIndex obj ix =>
        simp only [resolveGo] at h
        obtain ⟨R3, h1, h2⟩ := RRes.then_ok h
        exact (ih _ _ _ h2).trans (ih _ _ _ h1)
      | setIndex obj ix v =>
        simp only [resolveGo] at h
        obtain ⟨R3, h1, h2⟩ := RRes.then_ok h
        obtain ⟨R4, h3, h4⟩ := RRes.then_ok h2
        exact ((ih _ _ _ h4).trans (ih _ _ _ h3)).trans (ih _ _ _ h1)
      | dictE items =>
        simp only [resolveGo] at h
        exact ih _ _ _ h
    | exprList es =>
      cases es with
      | nil =>
        simp only [resolveGo] at h
        rw [← RRes.ok.inj h]
      | cons e es =>
        simp only [resolveGo] at h
        obtain ⟨R3, h1, h2⟩ := RRes.then_ok h
        exact (ih _ _ _ h2).trans (ih _ _ _ h1)
    | pairList ps =>
      cases ps with
      | nil =>
        simp only [resolveGo] at h
        rw [← RRes.ok.inj h]
      | cons p ps =>
        obtain ⟨a, b⟩ := p
        simp only [resolveGo] at h
        obtain ⟨R3, h1, h2⟩ := RRes.then_ok h
        obtain ⟨R4, h3, h4⟩ := RRes.then_ok h2
        exact ((ih _ _ _ h4).trans (ih _ _ _ h3)).trans (ih _ _ _ h1)
    | stmt s =>
      obtain ⟨k, i⟩ := s
      cases k with
      | block ss =>
        simp only [resolveGo] at h
        obtain ⟨R3, h1, h2⟩ := RRes.then_ok h
        have h3 := ih _ _ _ h1
        rw [← RRes.ok.inj h2]
        simp only [RState.endScope, RState.beginScope, List.length_cons]
          at h3 ⊢
        rw [List.length_tail]
        omega
      | letS name init =>
        cases init with
        | some e =>
          simp only [resolveGo] at h
          obtain ⟨R3, h1, h2⟩ := RRes.then_ok h
          rw [← RRes.ok.inj h2, RState.defineN_len]
          exact (ih _ _ _ h1).trans (RState.declare_len R name)
        | none =>
          simp only [resolveGo] at h
          rw [← RRes.ok.inj h, RState.defineN_len, RState.declare_len]
      | function name params body =>
        simp only [resolveGo] at h
        obtain ⟨R3, h1, h2⟩ := RRes.then_ok h
        have h3 := ih _ _ _ h1
        rw [RState.declareParams_len] at h3
        simp only [RState.beginScope, List.length_cons] at h3
        rw [RState.defineN_len, RState.declare_len] at h3
        rw [← RRes.ok.inj h2]
        simp only [RState.endScope]
        rw [List.length_tail]
        omega
      | expression e =>
        simp only [resolveGo] at h
        exact ih _ _ _ h
      | ifS cond thenB elseB =>
        cases elseB with
        | some e2 =>
          simp only [resolveGo] at h
          obtain ⟨R3, h1, h2⟩ := RRes.then_ok h
          obtain ⟨R4, h3, h4⟩ := RRes.then_ok h2
          exact ((ih _ _ _ h4).trans (ih _ _ _ h3)).trans (ih _ _ _ h1)
        | none =>
          simp only [resolveGo] at h
          obtain ⟨R3, h1, h2⟩ := RRes.then_ok h
          obtain ⟨R4, h3, h4⟩ := RRes.then_ok h2
          rw [← RRes.ok.inj h4]
          exact (ih _ _ _ h3).trans (ih _ _ _ h1)
      | returnS e =>
        cases e with
        | some e2 =>
          simp only [resolveGo] at h
          exact ih _ _ _ h
        | none =>
          simp only [resolveGo] at h
          rw [← RRes.ok.inj h]
      | whileS cond body =>
        simp only [resolveGo] at h
        obtain ⟨R3, h1, h2⟩ := RRes.then_ok h
        exact (ih _ _ _ h2).trans (ih _ _ _ h1)
    | stmtList ss =>
      cases ss with
      | nil =>
        simp only [resolveGo] at h
        rw [← RRes.ok.inj h]
      | cons s ss =>
        simp only [resolveGo] at h
        obtain ⟨R3, h1, h2⟩ := RRes.then_ok h
        exact (ih _ _ _ h2).trans (ih _ _ _ h1)

/-- The expression-shaped traversal arguments (for C10: expressions never
contain statements, so they never open a scope). -/
def RCall.exprish : RCall → Prop
  | .expr _ => True
  | .exprList _ => True
  | .pairList _ => True
  | .stmt _ => False
  | .stmtList _ => False

/-- With an empty scope stack, visiting any expression is a complete no-op
on the resolver state: the own-initializer check cannot fire and
`resolve_local` records nothing, so top-level variable references and
assignments receive no hop-table entry. -/
theorem resolveGo_expr_noop :
    ∀ (fuel : Nat) (c : RCall) (R R2 : RState),
      c.exprish → R.scopes = [] → resolveGo fuel R c = .ok R2 →
      R2 = R := by
  intro fuel
  induction fuel with
  | zero => intro c R R2 _ _ h; simp [resolveGo] at h
  | succ fuel ih =>
    intro c R R2 hex hs h
    cases c with
    | stmt s => exact hex.elim
    | stmtList ss => exact hex.elim
    | expr e =>
      obtain ⟨k, i⟩ := e
      cases k with
      | var name =>
        simp only [resolveGo, hs] at h
        rw [← RRes.ok.inj h, RState.resolveLocal_of_nil hs]
      | assign name value =>
        simp only [resolveGo] at h
        obtain ⟨R3, h1, h2⟩ := RRes.then_ok h
        have e1 := ih _ _ _ (by trivial) hs h1
        subst e1
        rw [← RRes.ok.inj h2, RState.resolveLocal_of_nil hs]
      | binary l op r =>
        simp only [resolveGo] at h
        obtain ⟨R3, h1, h2⟩ := RRes.then_ok h
        have e1 := ih _ _ _ (by trivial) hs h1
        subst e1
        exact ih _ _ _ (by trivial) hs h2
      | call callee args =>
        simp only [resolveGo] at h
        obtain ⟨R3, h1, h2⟩ := RRes.then_ok h
        have e1 := ih _ _ _ (by trivial) hs h1
        subst e1
        exact ih _ _ _ (by trivial) hs h2
      | grouping v =>
        simp only [resolveGo] at h
        exact ih _ _ _ (by trivial) hs h
      | literal v =>
        simp only [resolveGo] at h
        exact RRes.ok.inj h |>.symm
      | logical l op r =>
        simp only [resolveGo] at h
        obtain ⟨R3, h1, h2⟩ := RRes.then_ok h
        have e1 := ih _ _ _ (by trivial) hs h1
        subst e1
        exact ih _ _ _ (by trivial) hs h2
      | unary op r =>
        simp only [resolveGo] at h
        exact ih _ _ _ (by trivial) hs h
      | get obj name =>
        simp only [resolveGo] at h
        exact ih _ _ _ (by trivial) hs h
      | set obj name v =>
        simp only [resolveGo] at h
        obtain ⟨R3, h1, h2⟩ := RRes.then_ok h
        have e1 := ih _ _ _ (by trivial) hs h1
        subst e1
        exact ih _ _ _ (by trivial) hs h2
      | listE items =>
        simp only [resolveGo] at h
        exact ih _ _ _ (by trivial) hs h
      | getIndex obj ix =>
        simp only [resolveGo] at h
        obtain ⟨R3, h1, h2⟩ := RRes.then_ok h
        have e1 := ih _ _ _ (by trivial) hs h1
        subst e1
        exact ih _ _ _ (by trivial) hs h2
      | setIndex obj ix v =>
        simp only [resolveGo] at h
        obtain ⟨R3, h1, h2⟩ := RRes.then_ok h
        have e1 := ih _ _ _ (by trivial) hs h1
        subst e1
        obtain ⟨R4, h3, h4⟩ := RRes.then_ok h2
        have e2 := ih _ _ _ (by trivial) hs h3
        subst e2
        exact ih _ _ _ (by trivial) hs h4
      | dictE items =>
        simp only [resolveGo] at h
        exact ih _ _ _ (by trivial) hs h
    | exprList es =>
      cases es with
      | nil =>
        simp only [resolveGo] at h
        exact RRes.ok.inj h |>.symm
      | cons e es =>
        simp only [resolveGo] at h
        obtain ⟨R3, h1, h2⟩ := RRes.then_ok h
        have e1 := ih _ _ _ (by trivial) hs h1
        subst e1
        exact ih _ _ _ (by trivial) hs h2
    | pairList ps =>
      cases ps with
      | nil =>
        simp only [resolveGo] at h
        exact RRes.ok.inj h |>.symm
      | cons p ps =>
        obtain ⟨a, b⟩ := p
        simp only [resolveGo] at h
        obtain ⟨R3, h1, h2⟩ := RRes.then_ok h
        have e1 := ih _ _ _ (by trivial) hs h1
        subst e1
        obtain ⟨R4, h3, h4⟩ := RRes.then_ok h2
        have e2 := ih _ _ _ (by trivial) hs h3
        subst e2
        exact ih _ _ _ (by trivial) hs h4

/-- C10: at the top level the resolver's scope stack is empty and stays
empty. (1) With an empty scope stack, visiting any expression — in
particular every top-level variable reference and assignment — leaves the
resolver state unchanged, so no `locals` entry is recorded. (2) The same
holds for a whole top-level `let` declaration: `declare`/`define` are
no-ops on an empty stack, so the name is recorded in no scope. (3) Every
successful traversal preserves the scope-stack depth, so a whole program run
starting from the empty stack ends with it empty — statement (4). And
(5): for any node id without a `locals` entry, `Ctx::get`/`Ctx::assign`
resolve through the context's `size` fallback distance. -/
theorem c10_toplevel_fallback :
    (∀ (fuel : Nat) (e : Expr) (R R2 : RState),
       R.scopes = [] → resolveGo fuel R (.expr e) = .ok R2 → R2 = R)
    ∧ (∀ (fuel : Nat) (name : String) (init : Option Expr) (i : Nat)
         (R R2 : RState),
       R.scopes = [] →
       resolveGo fuel R (.stmt (.mk (.letS name init) i)) = .ok R2 →
       R2 = R)
    ∧ (∀ (fuel : Nat) (c : RCall) (R R2 : RState),
       resolveGo fuel R c = .ok R2 → R2.scopes.length = R.scopes.length)
    ∧ (∀ (fuel : Nat) (ss : List Stmt) (R2 : RState),
       resolveProgram fuel ss = .ok R2 → R2.scopes = [])
    ∧ (∀ (L : Locals) (σ : Store) (ctx : Ctx) (i : Nat) (name : String)
         (v : Value),
       lookupA L i = none →
       ctxGet L σ ctx i name = envGet σ ctx.env ctx.size name
       ∧ ctxAssign L σ ctx i name v
         = envAssign σ ctx.env ctx.size name v) := by
  refine ⟨?_, ?_, resolveGo_scopes_len, ?_, ?_⟩
  · intro fuel e R R2 hs h
    exact resolveGo_expr_noop fuel (.expr e) R R2 (by trivial) hs h
  · intro fuel name init i R R2 hs h
    cases fuel with
    | zero => simp [resolveGo] at h
    | succ fuel =>
      cases init with
      | some e =>
        simp only [resolveGo] at h
        obtain ⟨R3, h1, h2⟩ := RRes.then_ok h
        rw [RState.declare_of_nil hs] at h1
        have e1 := resolveGo_expr_noop fuel (.expr e) R R3 (by trivial) hs h1
        subst e1
        rw [← RRes.ok.inj h2, RState.defineN_of_nil hs]
      | none =>
        simp only [resolveGo] at h
        rw [← RRes.ok.inj h, RState.declare_of_nil hs,
          RState.defineN_of_nil hs]
  · intro fuel ss R2 h
    rw [resolveProgram] at h
    split at h
    · have hlen := resolveGo_scopes_len fuel _ _ _ h
      simpa using List.length_eq_zero.mp (by simpa using hlen)
    · rw [← RRes.ok.inj h]
  · intro L σ ctx i name v h
    constructor
    · rw [ctxGet, h]
      rfl
    · rw [ctxAssign, h]
      rfl

/-- C10 witness: a concrete top-level `let a = a;` visit and a concrete
fallback resolution, obtained by applying the theorem. -/
theorem c10_toplevel_fallback_witness :
    (⟨[], []⟩ : RState) = ⟨[], []⟩
    ∧ ctxGet [] globalStore ⟨0, 0⟩ 7 "time"
      = envGet globalStore 0 0 "time" := by
  constructor
  · exact c10_toplevel_fallback.2.1 6 "a"
      (some (.mk (.var "a") 0)) 1 ⟨[], []⟩ ⟨[], []⟩ rfl rfl
  · exact (c10_toplevel_fallback.2.2.2.2 [] globalStore ⟨0, 0⟩ 7 "time"
      .nil rfl).1

end Xi
